import Mathlib

/-!
Shallow embedding of the Valuation & Signal Engine of `strategy_app.py`
(the Watchlist repository).  Floating-point values are modelled as
rationals; `None`-able Python values as `Option`; the per-ticker loop of
the module body as a pure pipeline over input records.
-/

namespace Watchlist

/-! ## Constants (lines 20-29 of strategy_app.py) -/

def RSI_LENGTH : ℕ := 14

def EMA_LENGTH : ℕ := 200

def VOLUME_THRESHOLD_UP : ℚ := 3/2

def VOLUME_THRESHOLD_DOWN : ℚ := 8/10

def DRAWDOWN_THRESHOLD : ℚ := -(10/100)

def WACC : ℚ := 989/10000

def TERMINAL_GROWTH : ℚ := 25/1000

/-! ## DCF valuation (`calculate_dcf_fair_value_eps`, lines 100-138) -/

/-- Result record of the DCF valuation; mirrors the dict returned by
`calculate_dcf_fair_value_eps`.  The `method` key is absent (`none`) in the
early-exit branch for nonpositive EPS. -/
structure DcfResult where
  fv : ℚ
  pv_10y : ℚ
  pv_terminal : ℚ
  eps_year10 : ℚ
  terminal_multiple : ℚ
  error : Bool
  method : Option String
deriving DecidableEq

/-- The running sum built by the `for year in range(1, 11)` loop:
`dcf_pv_loop eps g n` is the present value of the first `n` projected
yearly EPS flows. -/
def dcf_pv_loop (eps growth_rate : ℚ) : ℕ → ℚ
  | 0 => 0
  | n + 1 =>
    dcf_pv_loop eps growth_rate n +
      eps * (1 + growth_rate) ^ (n + 1) / (1 + WACC) ^ (n + 1)

def calculate_dcf_fair_value_eps (eps : ℚ) (growth_rate : ℚ) : DcfResult :=
  if eps ≤ 0 then
    { fv := 0, pv_10y := 0, pv_terminal := 0, eps_year10 := 0,
      terminal_multiple := 0, error := true, method := none }
  else if WACC ≤ growth_rate then
    { fv := eps * 35, pv_10y := eps * 35 * (7/10),
      pv_terminal := eps * 35 * (3/10), eps_year10 := 0,
      terminal_multiple := 0, error := false, method := some "Fallback" }
  else
    { fv := dcf_pv_loop eps growth_rate 10 +
        eps * (1 + growth_rate) ^ 10 *
          ((1 + TERMINAL_GROWTH) / (WACC - TERMINAL_GROWTH)) / (1 + WACC) ^ 10,
      pv_10y := dcf_pv_loop eps growth_rate 10,
      pv_terminal := eps * (1 + growth_rate) ^ 10 *
        ((1 + TERMINAL_GROWTH) / (WACC - TERMINAL_GROWTH)) / (1 + WACC) ^ 10,
      eps_year10 := eps * (1 + growth_rate) ^ 10,
      terminal_multiple := (1 + TERMINAL_GROWTH) / (WACC - TERMINAL_GROWTH),
      error := false, method := some "DCF 10-Year EPS + Terminal" }

theorem dcf_pv_loop_eq_sum (eps g : ℚ) (n : ℕ) :
    dcf_pv_loop eps g n =
      ∑ y in Finset.Icc 1 n, eps * (1 + g) ^ y / (1 + WACC) ^ y := by
  induction n with
  | zero => simp [dcf_pv_loop]
  | succ n ih =>
    rw [Finset.sum_Icc_succ_top (by omega)]
    simp [dcf_pv_loop, ih]

theorem dcf_pv_loop_nonneg (eps g : ℚ) (he : 0 ≤ eps) (hg : -1 < g) :
    ∀ n, 0 ≤ dcf_pv_loop eps g n := by
  intro n
  induction n with
  | zero => simp [dcf_pv_loop]
  | succ n ih =>
    have hterm : 0 ≤ eps * (1 + g) ^ (n + 1) / (1 + WACC) ^ (n + 1) := by
      apply div_nonneg (mul_nonneg he (pow_nonneg (by linarith) _))
      exact pow_nonneg (by norm_num [WACC]) _
    simp only [dcf_pv_loop]
    linarith

theorem dcf_pv_loop_pos (eps g : ℚ) (he : 0 < eps) (hg : -1 < g) (n : ℕ) :
    0 < dcf_pv_loop eps g (n + 1) := by
  have hterm : 0 < eps * (1 + g) ^ (n + 1) / (1 + WACC) ^ (n + 1) := by
    apply div_pos (mul_pos he (pow_pos (by linarith) _))
    exact pow_pos (by norm_num [WACC]) _
  have := dcf_pv_loop_nonneg eps g he.le hg n
  simp only [dcf_pv_loop]
  linarith

theorem dcf_terminal_pos (eps g : ℚ) (he : 0 < eps) (hg : -1 < g) :
    0 < eps * (1 + g) ^ 10 *
      ((1 + TERMINAL_GROWTH) / (WACC - TERMINAL_GROWTH)) / (1 + WACC) ^ 10 := by
  apply div_pos
  · apply mul_pos (mul_pos he (pow_pos (by linarith) _))
    apply div_pos <;> norm_num [WACC, TERMINAL_GROWTH]
  · exact pow_pos (by norm_num [WACC]) _

theorem dcf_fv_pos (eps g : ℚ) (he : 0 < eps) (hg : -1 < g) :
    0 < (calculate_dcf_fair_value_eps eps g).fv := by
  unfold calculate_dcf_fair_value_eps
  split_ifs with h1 h2
  · linarith
  · simp only
    linarith
  · simp only
    have := dcf_pv_loop_pos eps g he hg 9
    have := dcf_terminal_pos eps g he hg
    linarith

theorem dcf_error_false (eps g : ℚ) (he : 0 < eps) :
    (calculate_dcf_fair_value_eps eps g).error = false := by
  unfold calculate_dcf_fair_value_eps
  split_ifs with h1 h2 <;> first | linarith | rfl

/-! ## Theorems for claim C6 -/

/-- C6 counterexample: at EPS 1 and growth rate 0.12 the code takes the
fixed-multiple fallback branch (fv = 35) although the discount rate WACC
exceeds the terminal growth rate, and the returned value differs from the
10-year-flows-plus-terminal sum the claim promises in that case. -/
theorem dcf_fallback_counterexample :
    ¬ WACC ≤ TERMINAL_GROWTH ∧
    (calculate_dcf_fair_value_eps 1 (12/100)).method = some "Fallback" ∧
    (calculate_dcf_fair_value_eps 1 (12/100)).fv = 35 ∧
    (calculate_dcf_fair_value_eps 1 (12/100)).fv ≠
      (∑ y in Finset.Icc 1 10, (1:ℚ) * (1 + 12/100) ^ y / (1 + WACC) ^ y) +
        1 * (1 + 12/100) ^ 10 *
          ((1 + TERMINAL_GROWTH) / (WACC - TERMINAL_GROWTH)) / (1 + WACC) ^ 10 := by
  refine ⟨by norm_num [WACC, TERMINAL_GROWTH],
    by norm_num [calculate_dcf_fair_value_eps, WACC],
    by norm_num [calculate_dcf_fair_value_eps, WACC], ?_⟩
  rw [← dcf_pv_loop_eq_sum]
  norm_num [calculate_dcf_fair_value_eps, WACC, TERMINAL_GROWTH, dcf_pv_loop]

/-- C6 amended: for positive EPS the DCF valuation degrades to the
fixed-multiple fallback (EPS times 35) exactly when the discount rate WACC
is at most the projection growth-rate parameter; otherwise it returns the
sum of ten yearly EPS flows compounded at the growth rate and discounted
at WACC, plus a perpetuity-growth terminal value discounted back ten
years. -/
theorem dcf_branches (eps g : ℚ) (he : 0 < eps) :
    ((calculate_dcf_fair_value_eps eps g).method = some "Fallback" ↔ WACC ≤ g) ∧
    (WACC ≤ g → (calculate_dcf_fair_value_eps eps g).fv = eps * 35) ∧
    (¬ WACC ≤ g → (calculate_dcf_fair_value_eps eps g).fv =
      (∑ y in Finset.Icc 1 10, eps * (1 + g) ^ y / (1 + WACC) ^ y) +
        eps * (1 + g) ^ 10 *
          ((1 + TERMINAL_GROWTH) / (WACC - TERMINAL_GROWTH)) / (1 + WACC) ^ 10) := by
  unfold calculate_dcf_fair_value_eps
  rw [← dcf_pv_loop_eq_sum]
  split_ifs with h1 h2
  · exact absurd h1 (by linarith)
  · simp_all
  · simp_all

/-- Witness for C6 amended at EPS 1, growth rate 0.08 (the conservative
scenario, where WACC exceeds the growth rate). -/
theorem dcf_branches_witness :
    (0:ℚ) < 1 ∧
    (((calculate_dcf_fair_value_eps 1 (8/100)).method = some "Fallback" ↔
        WACC ≤ 8/100) ∧
     (WACC ≤ 8/100 → (calculate_dcf_fair_value_eps 1 (8/100)).fv = 1 * 35) ∧
     (¬ WACC ≤ 8/100 → (calculate_dcf_fair_value_eps 1 (8/100)).fv =
       (∑ y in Finset.Icc 1 10, (1:ℚ) * (1 + 8/100) ^ y / (1 + WACC) ^ y) +
         1 * (1 + 8/100) ^ 10 *
           ((1 + TERMINAL_GROWTH) / (WACC - TERMINAL_GROWTH)) /
             (1 + WACC) ^ 10)) :=
  ⟨by norm_num, dcf_branches 1 (8/100) (by norm_num)⟩

/-! ## Signal generator (`generate_signal`, lines 173-182) -/

def generate_signal (price_eur fv_eur rsi mos_pct : ℚ) : String × ℕ :=
  let buy_limit := fv_eur * (1 - mos_pct)
  let watch_limit := fv_eur * (1 + mos_pct)
  if price_eur ≤ buy_limit ∧ rsi < 40 then ("🟢 KAUF", 1)
  else if price_eur ≤ watch_limit then ("🟡 BEOBACHTEN", 2)
  else ("🔴 WARTEN", 3)

/-! ## Theorems for claim C1 -/

/-- C1: the signal generator returns BUY (rank 1) exactly when
`price ≤ fv*(1-m)` and `rsi < 40`; otherwise WATCH (rank 2) exactly when
`price ≤ fv*(1+m)`; otherwise WAIT (rank 3); and at price 80, fair value
100, RSI 55, margin 0.10 it returns WATCH with rank 2. -/
theorem generate_signal_cases (p f r m : ℚ) (hm : 0 < m ∧ m < 1) :
    (generate_signal p f r m = ("🟢 KAUF", 1) ↔ (p ≤ f * (1 - m) ∧ r < 40)) ∧
    (generate_signal p f r m = ("🟡 BEOBACHTEN", 2) ↔
      (¬(p ≤ f * (1 - m) ∧ r < 40) ∧ p ≤ f * (1 + m))) ∧
    (generate_signal p f r m = ("🔴 WARTEN", 3) ↔
      (¬(p ≤ f * (1 - m) ∧ r < 40) ∧ ¬ p ≤ f * (1 + m))) ∧
    generate_signal 80 100 55 (1/10) = ("🟡 BEOBACHTEN", 2) := by
  simp only [generate_signal]
  refine ⟨?_, ?_, ?_, by norm_num⟩ <;> split_ifs with h1 h2 <;>
    simp_all

/-- Witness for C1 at price 80, fair value 100, RSI 55, margin 1/10. -/
theorem generate_signal_cases_witness :
    (0 < (1:ℚ)/10 ∧ (1:ℚ)/10 < 1) ∧
    generate_signal 80 100 55 (1/10) = ("🟡 BEOBACHTEN", 2) :=
  ⟨⟨by norm_num, by norm_num⟩,
    (generate_signal_cases 80 100 55 (1/10) ⟨by norm_num, by norm_num⟩).2.2.2⟩

/-! ## Theorems for claim C5 -/

/-- C5 counterexample: with a negative fair value (price -60, fair value
-100, RSI 30) the signal at margin 1/2 is BUY but at the smaller margin
1/10 it is WAIT, so decreasing the margin demotes a BUY to WAIT. -/
theorem signal_monotone_counterexample :
    (0:ℚ) < 1/10 ∧ (1:ℚ)/10 < 1/2 ∧ (1:ℚ)/2 < 1 ∧
    generate_signal (-60) (-100) 30 (1/2) = ("🟢 KAUF", 1) ∧
    generate_signal (-60) (-100) 30 (1/10) = ("🔴 WARTEN", 3) := by
  refine ⟨by norm_num, by norm_num, by norm_num, ?_, ?_⟩ <;>
    ·simp only [generate_signal]; norm_num

theorem buy_limit_between (p f m m' : ℚ) (hm0 : 0 < m') (hmm : m' < m)
    (hw : f * (1 + m) < p) (hb : f * (1 - m) < p) : f * (1 - m') < p := by
  have hm : 0 < m := lt_trans hm0 hmm
  nlinarith [mul_pos (by linarith : (0:ℚ) < m + m')
      (by linarith : (0:ℚ) < p - f * (1 - m)),
    mul_pos (by linarith : (0:ℚ) < m - m')
      (by linarith : (0:ℚ) < p - f * (1 + m))]

/-- C5 amended: decreasing the margin of safety never turns WAIT into BUY
(for any fair value), and — provided the fair value is nonnegative —
never turns BUY into WAIT. -/
theorem signal_monotone (p f r m m' : ℚ)
    (hm0 : 0 < m') (hmm : m' < m) (hm1 : m < 1) :
    (generate_signal p f r m = ("🔴 WARTEN", 3) →
      generate_signal p f r m' ≠ ("🟢 KAUF", 1)) ∧
    (0 ≤ f → generate_signal p f r m = ("🟢 KAUF", 1) →
      generate_signal p f r m' ≠ ("🔴 WARTEN", 3)) := by
  constructor
  · intro hsig hne
    simp only [generate_signal] at hsig hne
    by_cases h1 : p ≤ f * (1 - m) ∧ r < 40
    · rw [if_pos h1] at hsig
      exact absurd hsig (by decide)
    · rw [if_neg h1] at hsig
      by_cases h2 : p ≤ f * (1 + m)
      · rw [if_pos h2] at hsig
        exact absurd hsig (by decide)
      · by_cases h3 : p ≤ f * (1 - m') ∧ r < 40
        · have hb : f * (1 - m) < p := by
            by_contra hc
            push_neg at hc
            exact h1 ⟨hc, h3.2⟩
          have hw : f * (1 + m) < p := not_le.mp h2
          have := buy_limit_between p f m m' hm0 hmm hw hb
          linarith [h3.1]
        · rw [if_neg h3] at hne
          split_ifs at hne <;> exact absurd hne (by decide)
  · intro hf hsig hne
    simp only [generate_signal] at hsig hne
    have hbuy : f * (1 - m) ≤ f * (1 - m') :=
      mul_le_mul_of_nonneg_left (by linarith) hf
    by_cases h1 : p ≤ f * (1 - m) ∧ r < 40
    · have h3 : p ≤ f * (1 - m') ∧ r < 40 := ⟨le_trans h1.1 hbuy, h1.2⟩
      rw [if_pos h3] at hne
      exact absurd hne (by decide)
    · rw [if_neg h1] at hsig
      split_ifs at hsig <;> exact absurd hsig (by decide)

/-- Witness for C5 amended: at price 200, fair value 100, RSI 55 the
signal at margin 1/2 is WAIT, so at margin 1/10 it is not BUY. -/
theorem signal_monotone_witness :
    ((0:ℚ) < 1/10 ∧ (1:ℚ)/10 < 1/2 ∧ (1:ℚ)/2 < 1) ∧
    generate_signal 200 100 55 (1/10) ≠ ("🟢 KAUF", 1) :=
  ⟨⟨by norm_num, by norm_num, by norm_num⟩,
    (signal_monotone 200 100 55 (1/2) (1/10) (by norm_num) (by norm_num)
      (by norm_num)).1 (by simp only [generate_signal]; norm_num)⟩

/-! ## Price history and technical profile (lines 140-171) -/

/-- One row of the yfinance history frame; only the columns the engine
reads are kept. -/
structure Bar where
  high : ℚ
  close : ℚ
  volume : ℚ
deriving DecidableEq

def closesOf (hist : List Bar) : List ℚ := hist.map Bar.close

/-- Running maximum of a series, as computed by `cummax`; the head of the
result is the first element itself. -/
def cummaxAux (m : ℚ) : List ℚ → List ℚ
  | [] => []
  | c :: cs => max m c :: cummaxAux (max m c) cs

def cummax : List ℚ → List ℚ
  | [] => []
  | c :: cs => c :: cummaxAux c cs

def calculate_avg_drawdown (hist : List Bar) : ℚ :=
  let closes := closesOf hist
  let drawdown := List.zipWith (fun c m => (c - m) / m) closes (cummax closes)
  let significant := drawdown.filter (fun d => decide (d < DRAWDOWN_THRESHOLD))
  if significant.isEmpty then 0
  else significant.sum / (significant.length : ℚ) * 100

/-- Maximum of a column, as pandas `.max()` over a nonempty series. -/
def listMax : List ℚ → ℚ
  | [] => 0
  | x :: xs => xs.foldl max x

def athOf (hist : List Bar) : ℚ := listMax (hist.map Bar.high)

/-- Modelled from the spec: RSI day-over-day deltas of the close series.
The RSI itself is computed by the external pandas-ta library, which is not
part of this repository; the spec prescribes a trailing 14-period window
of day-over-day deltas. -/
def deltasOf (closes : List ℚ) : List ℚ :=
  List.zipWith (fun a b => b - a) closes closes.tail

def trailingWindow (n : ℕ) (l : List ℚ) : List ℚ := l.drop (l.length - n)

/-- Modelled from the spec: the average gain over the trailing 14-period
window of deltas. -/
def avgGainOf (closes : List ℚ) : ℚ :=
  ((trailingWindow RSI_LENGTH (deltasOf closes)).map (fun d => max d 0)).sum /
    (RSI_LENGTH : ℚ)

/-- Modelled from the spec: the average loss over the trailing 14-period
window of deltas. -/
def avgLossOf (closes : List ℚ) : ℚ :=
  ((trailingWindow RSI_LENGTH (deltasOf closes)).map (fun d => max (-d) 0)).sum /
    (RSI_LENGTH : ℚ)

/-- Modelled from the spec: RSI(14) = 100 - 100/(1 + avgGain/avgLoss),
saturating at 100 when the average loss is 0.  The call site in the source
is the external `ta.rsi` invocation on line 148. -/
def rsiOf (closes : List ℚ) : ℚ :=
  if avgLossOf closes = 0 then 100
  else 100 - 100 / (1 + avgGainOf closes / avgLossOf closes)

/-- Modelled from the spec: the 200-period moving average the trend signal
compares against.  The source calls the external `ta.ema` (length 200,
SMA-seeded exponential average), which is not part of this repository. -/
def ema200 (closes : List ℚ) : ℚ :=
  (closes.drop EMA_LENGTH).foldl
    (fun prev c => (2 / ((EMA_LENGTH : ℚ) + 1)) * c +
      (1 - 2 / ((EMA_LENGTH : ℚ) + 1)) * prev)
    ((closes.take EMA_LENGTH).sum / (EMA_LENGTH : ℚ))

/-- Trend label, lines 150-156: requires strictly more than 200
observations, otherwise the label degrades to N/A. -/
def trendOf (hist : List Bar) (price_usd : ℚ) : String :=
  if EMA_LENGTH < hist.length then
    if ema200 (closesOf hist) < price_usd then "Bullish" else "Bearish"
  else "N/A"

def ema200Opt (hist : List Bar) : Option ℚ :=
  if EMA_LENGTH < hist.length then some (ema200 (closesOf hist)) else none

/-- Volume pressure label, lines 158-165: latest volume against the mean
of the trailing 20 volumes. -/
def volumeLabel (hist : List Bar) : String :=
  let vols := hist.map Bar.volume
  let tail20 := vols.drop (vols.length - 20)
  let vol_ma := tail20.sum / (tail20.length : ℚ)
  if vol_ma * VOLUME_THRESHOLD_UP < vols.getLastD 0 then "BUY Vol"
  else if vols.getLastD 0 < vol_ma * VOLUME_THRESHOLD_DOWN then "SELL Vol"
  else "Normal"

structure TechMetrics where
  rsi : ℚ
  trend : String
  ema200 : Option ℚ
  volume : String
  ath : ℚ
  corr_ath : ℚ
  avg_dd : ℚ
deriving DecidableEq

def calculate_technical_metrics (hist : List Bar) (price_usd : ℚ) : TechMetrics :=
  { rsi := rsiOf (closesOf hist),
    trend := trendOf hist price_usd,
    ema200 := ema200Opt hist,
    volume := volumeLabel hist,
    ath := athOf hist,
    corr_ath := (price_usd - athOf hist) / athOf hist * 100,
    avg_dd := calculate_avg_drawdown hist }

theorem list_sum_nonpos {l : List ℚ} (h : ∀ x ∈ l, x ≤ 0) : l.sum ≤ 0 := by
  induction l with
  | nil => simp
  | cons a t ih =>
    have ha := h a (by simp)
    have ht := ih fun x hx => h x (by simp [hx])
    simp only [List.sum_cons]
    linarith

theorem avg_times_100_nonpos (sig : List ℚ) (hall : ∀ x ∈ sig, x ≤ 0) :
    (if sig.isEmpty then (0:ℚ)
     else sig.sum / (sig.length : ℚ) * 100) ≤ 0 := by
  by_cases hemp : sig.isEmpty
  · simp [hemp]
  · rw [if_neg hemp]
    have hsum : sig.sum ≤ 0 := list_sum_nonpos hall
    have hlen : (0:ℚ) ≤ (sig.length : ℚ) := by positivity
    have h2 : sig.sum / (sig.length : ℚ) ≤ 0 :=
      div_nonpos_of_nonpos_of_nonneg hsum hlen
    linarith

/-! ## Theorems for claim C7 -/

/-- C7 counterexample: a one-bar series whose close (20) exceeds its high
(10) yields a correction of +100, which is not ≤ 0. -/
theorem corr_ath_counterexample :
    (calculate_technical_metrics [⟨10, 20, 1⟩] 20).corr_ath = 100 ∧
    ¬ (calculate_technical_metrics [⟨10, 20, 1⟩] 20).corr_ath ≤ 0 := by
  have h : (calculate_technical_metrics [⟨10, 20, 1⟩] 20).corr_ath =
      ((20 : ℚ) - 10) / 10 * 100 := rfl
  rw [h]
  norm_num

/-- C7 amended: the average-drawdown value is always ≤ 0, and the
correction from the all-time high is ≤ 0 provided the all-time high is
positive and the current price does not exceed it. -/
theorem tech_metrics_nonpos (hist : List Bar) (price : ℚ)
    (hath : 0 < athOf hist) (hp : price ≤ athOf hist) :
    (calculate_technical_metrics hist price).corr_ath ≤ 0 ∧
    (calculate_technical_metrics hist price).avg_dd ≤ 0 := by
  constructor
  · show (price - athOf hist) / athOf hist * 100 ≤ 0
    have h1 : (price - athOf hist) / athOf hist ≤ 0 :=
      div_nonpos_of_nonpos_of_nonneg (by linarith) hath.le
    linarith
  · show calculate_avg_drawdown hist ≤ 0
    exact avg_times_100_nonpos _ (by
      intro x hx
      have hlt : x < DRAWDOWN_THRESHOLD :=
        of_decide_eq_true (List.mem_filter.mp hx).2
      have hth : DRAWDOWN_THRESHOLD < 0 := by norm_num [DRAWDOWN_THRESHOLD]
      linarith)

/-- Witness for C7 amended on a one-bar series with high 10 and close 5,
evaluated at price 5. -/
theorem tech_metrics_nonpos_witness :
    (0 < athOf [⟨10, 5, 1⟩] ∧ (5:ℚ) ≤ athOf [⟨10, 5, 1⟩]) ∧
    ((calculate_technical_metrics [⟨10, 5, 1⟩] 5).corr_ath ≤ 0 ∧
     (calculate_technical_metrics [⟨10, 5, 1⟩] 5).avg_dd ≤ 0) :=
  ⟨⟨by decide, by decide⟩,
    tech_metrics_nonpos [⟨10, 5, 1⟩] 5 (by decide) (by decide)⟩

/-! ## Theorems for claim C8 -/

/-- C8: for a close series of at least 15 observations, the spec-modelled
RSI(14) lies in [0, 100], and it equals 100 when the average loss over the
trailing 14-period window is 0. -/
theorem rsi_bounds (closes : List ℚ) (h : 15 ≤ closes.length) :
    0 ≤ rsiOf closes ∧ rsiOf closes ≤ 100 ∧
    (avgLossOf closes = 0 → rsiOf closes = 100) := by
  clear h
  have hG : 0 ≤ avgGainOf closes := by
    unfold avgGainOf
    apply div_nonneg _ (by norm_num [RSI_LENGTH])
    apply List.sum_nonneg
    intro x hx
    obtain ⟨d, _, rfl⟩ := List.mem_map.mp hx
    exact le_max_right d 0
  have hL : 0 ≤ avgLossOf closes := by
    unfold avgLossOf
    apply div_nonneg _ (by norm_num [RSI_LENGTH])
    apply List.sum_nonneg
    intro x hx
    obtain ⟨d, _, rfl⟩ := List.mem_map.mp hx
    exact le_max_right (-d) 0
  unfold rsiOf
  split_ifs with h0
  · exact ⟨by norm_num, by norm_num, fun _ => rfl⟩
  · have hLpos : 0 < avgLossOf closes := lt_of_le_of_ne hL (Ne.symm h0)
    have hr : 0 ≤ avgGainOf closes / avgLossOf closes := div_nonneg hG hL
    have h1 : (1:ℚ) ≤ 1 + avgGainOf closes / avgLossOf closes := by linarith
    have h2 : 100 / (1 + avgGainOf closes / avgLossOf closes) ≤ 100 / 1 :=
      div_le_div_of_nonneg_left (by norm_num) (by norm_num) h1
    have h3 : 0 < 100 / (1 + avgGainOf closes / avgLossOf closes) :=
      div_pos (by norm_num) (by linarith)
    refine ⟨by linarith [h2], by linarith [h3], fun hc => absurd hc h0⟩

/-- Witness for C8 on the strictly rising 15-element close series
1, 2, ..., 15, whose trailing average loss is 0 and whose RSI is 100. -/
theorem rsi_bounds_witness :
    15 ≤ ([1, 2, 3, 4, 5, 6, 7, 8, 9, 10, 11, 12, 13, 14, 15] : List ℚ).length ∧
    (0 ≤ rsiOf [1, 2, 3, 4, 5, 6, 7, 8, 9, 10, 11, 12, 13, 14, 15] ∧
     rsiOf [1, 2, 3, 4, 5, 6, 7, 8, 9, 10, 11, 12, 13, 14, 15] ≤ 100 ∧
     (avgLossOf [1, 2, 3, 4, 5, 6, 7, 8, 9, 10, 11, 12, 13, 14, 15] = 0 →
       rsiOf [1, 2, 3, 4, 5, 6, 7, 8, 9, 10, 11, 12, 13, 14, 15] = 100)) :=
  ⟨by decide, rsi_bounds [1, 2, 3, 4, 5, 6, 7, 8, 9, 10, 11, 12, 13, 14, 15]
    (by decide)⟩

/-! ## Theorems for claim C9 -/

set_option maxRecDepth 100000 in
/-- C9 counterexample: a series of exactly 200 observations gets the trend
label N/A (unknown), although the claim requires a bullish or bearish
label for 200 or more observations. -/
theorem trend_boundary_counterexample :
    (List.replicate 200 (Bar.mk 1 1 1)).length = 200 ∧
    (calculate_technical_metrics (List.replicate 200 (Bar.mk 1 1 1)) 2).trend =
      "N/A" := by
  refine ⟨by rw [List.length_replicate], ?_⟩
  show trendOf (List.replicate 200 (Bar.mk 1 1 1)) 2 = "N/A"
  unfold trendOf
  rw [if_neg]
  rw [List.length_replicate]
  norm_num [EMA_LENGTH]

/-- C9 amended: the trend label is N/A (unknown) exactly when the series
has at most 200 observations; with more than 200 observations it is
Bullish when the price is above the 200-period moving average and Bearish
otherwise. -/
theorem trend_cases (hist : List Bar) (price : ℚ) :
    ((calculate_technical_metrics hist price).trend = "N/A" ↔
      hist.length ≤ 200) ∧
    (calculate_technical_metrics hist price).trend =
      (if 200 < hist.length then
        (if ema200 (closesOf hist) < price then "Bullish" else "Bearish")
       else "N/A") := by
  show (trendOf hist price = "N/A" ↔ hist.length ≤ 200) ∧ trendOf hist price = _
  unfold trendOf
  rw [show EMA_LENGTH = 200 from rfl]
  constructor
  · split_ifs with h1 h2 <;> simp <;> omega
  · rfl

/-! ## Batch pipeline (module-level watchlist loop, lines 240-307) -/

/-- Fundamentals mapping; only the keys the loop reads.  `none` models an
absent key. -/
structure Info where
  trailingEps : Option ℚ
  forwardEps : Option ℚ
  currentPrice : Option ℚ
deriving DecidableEq

/-- Python `x or d` on an optional numeric value: both a missing key and
a stored 0 are falsy and select the default. -/
def pyOr (x : Option ℚ) (d : ℚ) : ℚ :=
  match x with
  | none => d
  | some v => if v = 0 then d else v

/-- What `get_market_data` returns on success: the history frame and the
info mapping. -/
structure Snapshot where
  hist : List Bar
  info : Info
deriving DecidableEq

/-- One watchlist entry as the loop sees it: `data = none` models a failed
fetch (the ticker is absent from `market_data_map`); `override` models the
`fair_values` table row: `none` is no row, `some none` a row without the
`fair_value_usd` key, `some (some v)` a row storing `v`. -/
structure StockInput where
  ticker : String
  data : Option Snapshot
  override : Option (Option ℚ)
deriving DecidableEq

/-- Lines 268-270: if a DB row exists, `fv_usd = row.get('fair_value_usd',
fv_usd)`; no positivity check is performed. -/
def apply_override (ov : Option (Option ℚ)) (fv : ℚ) : ℚ :=
  match ov with
  | none => fv
  | some row => row.getD fv

def lastClose (hist : List Bar) : ℚ := (closesOf hist).getLastD 0

/-- One entry of `all_results` (lines 283-304); only the fields the
ranking and the claims read. -/
structure ResultRow where
  ticker : String
  kurs_eur : ℚ
  fair_value_eur : ℚ
  upside_pct : ℚ
  rsi : ℚ
  signal : String
  fv_usd : ℚ
  rank : ℕ
deriving DecidableEq

/-- The body of the per-ticker loop, lines 255-304: `none` means the
ticker contributes no row (fetch failed, or the resolved fair value is not
positive). -/
def evalStock (growth_rate eur_usd mos_pct : ℚ) (s : StockInput) :
    Option ResultRow :=
  match s.data with
  | none => none
  | some snap =>
    let eps := pyOr snap.info.trailingEps (pyOr snap.info.forwardEps 1)
    let dcf := calculate_dcf_fair_value_eps eps growth_rate
    let price_usd := pyOr snap.info.currentPrice (lastClose snap.hist)
    let fv_usd := apply_override s.override dcf.fv
    if fv_usd ≤ 0 then none
    else
      let fv_eur := fv_usd / eur_usd
      let price_eur := price_usd / eur_usd
      let tm := calculate_technical_metrics snap.hist price_usd
      let sig := generate_signal price_eur fv_eur tm.rsi mos_pct
      some { ticker := s.ticker, kurs_eur := price_eur,
             fair_value_eur := fv_eur,
             upside_pct := (fv_eur - price_eur) / price_eur * 100,
             rsi := tm.rsi, signal := sig.1, fv_usd := fv_usd,
             rank := sig.2 }

/-- Strict precedence of the final sort (line 307): rank ascending, then
upside percentage descending. -/
def rowPrecedes (a b : ResultRow) : Bool :=
  decide (a.rank < b.rank) ||
    (decide (a.rank = b.rank) && decide (b.upside_pct < a.upside_pct))

/-- Stable insertion of a row: `x` passes over exactly the rows that
strictly precede it. -/
def insertRow (x : ResultRow) : List ResultRow → List ResultRow
  | [] => [x]
  | y :: ys => if rowPrecedes y x then y :: insertRow x ys else x :: y :: ys

/-- The stable sort by (rank ascending, upside descending) performed by
`sort_values` on line 307 (a multi-column lexsort, which is stable). -/
def sortResults : List ResultRow → List ResultRow
  | [] => []
  | x :: xs => insertRow x (sortResults xs)

def runBatch (growth_rate eur_usd mos_pct : ℚ) (inputs : List StockInput) :
    List ResultRow :=
  sortResults (inputs.filterMap (evalStock growth_rate eur_usd mos_pct))

/-- Membership test on the sort key, used to state stability. -/
def keyIs (r : ℕ) (u : ℚ) (row : ResultRow) : Bool :=
  decide (row.rank = r) && decide (row.upside_pct = u)

/-- Non-strict ordering of the final list: rank ascending, upside
descending within a rank. -/
def rowLe (a b : ResultRow) : Prop :=
  a.rank ≤ b.rank ∧ (a.rank = b.rank → b.upside_pct ≤ a.upside_pct)

theorem rowPrecedes_false_iff {a b : ResultRow} :
    rowPrecedes b a = false ↔ rowLe a b := by
  simp only [rowPrecedes, rowLe, Bool.or_eq_false_iff, Bool.and_eq_false_iff,
    decide_eq_false_iff_not]
  constructor
  · rintro ⟨h1, h2⟩
    refine ⟨by omega, fun hr => ?_⟩
    rcases h2 with h | h
    · exact absurd hr.symm h
    · exact le_of_not_lt h
  · rintro ⟨h1, h2⟩
    refine ⟨by omega, ?_⟩
    by_cases hr : b.rank = a.rank
    · right; exact not_lt.mpr (h2 hr.symm)
    · left; exact hr

theorem rowPrecedes_true_le {a b : ResultRow} (h : rowPrecedes a b = true) :
    rowLe a b := by
  simp only [rowPrecedes, Bool.or_eq_true, Bool.and_eq_true,
    decide_eq_true_eq] at h
  rcases h with h | ⟨h1, h2⟩
  · exact ⟨by omega, fun hr => by omega⟩
  · exact ⟨by omega, fun _ => h2.le⟩

theorem rowLe_trans {a b c : ResultRow} (h1 : rowLe a b) (h2 : rowLe b c) :
    rowLe a c := by
  obtain ⟨ha, hb⟩ := h1
  obtain ⟨hc, hd⟩ := h2
  refine ⟨le_trans ha hc, fun h => ?_⟩
  have e1 : a.rank = b.rank := by omega
  have e2 : b.rank = c.rank := by omega
  exact le_trans (hd e2) (hb e1)

theorem mem_insertRow {x z : ResultRow} {l : List ResultRow} :
    z ∈ insertRow x l ↔ z = x ∨ z ∈ l := by
  induction l with
  | nil => simp [insertRow]
  | cons y ys ih =>
    by_cases hp : rowPrecedes y x
    · simp only [insertRow, if_pos hp, List.mem_cons, ih]
      tauto
    · simp only [insertRow, if_neg hp, List.mem_cons]

theorem pairwise_insertRow {x : ResultRow} {l : List ResultRow}
    (hl : l.Pairwise rowLe) : (insertRow x l).Pairwise rowLe := by
  induction l with
  | nil => simp [insertRow]
  | cons y ys ih =>
    obtain ⟨hy, hys⟩ := List.pairwise_cons.mp hl
    by_cases hp : rowPrecedes y x
    · rw [insertRow, if_pos hp]
      refine List.pairwise_cons.mpr ⟨?_, ih hys⟩
      intro z hz
      rcases mem_insertRow.mp hz with rfl | hz
      · exact rowPrecedes_true_le hp
      · exact hy z hz
    · rw [insertRow, if_neg hp]
      have hxy : rowLe x y :=
        rowPrecedes_false_iff.mp (Bool.eq_false_iff.mpr hp)
      refine List.pairwise_cons.mpr ⟨?_, hl⟩
      intro z hz
      rcases List.mem_cons.mp hz with rfl | hz
      · exact hxy
      · exact rowLe_trans hxy (hy z hz)

theorem pairwise_sortResults (l : List ResultRow) :
    (sortResults l).Pairwise rowLe := by
  induction l with
  | nil => simp [sortResults]
  | cons x xs ih => exact pairwise_insertRow ih

theorem insertRow_perm (x : ResultRow) (l : List ResultRow) :
    (insertRow x l).Perm (x :: l) := by
  induction l with
  | nil => simp [insertRow]
  | cons y ys ih =>
    by_cases hp : rowPrecedes y x
    · rw [insertRow, if_pos hp]
      exact (List.Perm.cons y ih).trans (List.Perm.swap x y ys)
    · rw [insertRow, if_neg hp]

theorem sortResults_perm (l : List ResultRow) : (sortResults l).Perm l := by
  induction l with
  | nil => simp [sortResults]
  | cons x xs ih =>
    exact (insertRow_perm x (sortResults xs)).trans (List.Perm.cons x ih)

theorem keyIs_of_rowPrecedes {r : ℕ} {u : ℚ} {x y : ResultRow}
    (hx : keyIs r u x = true) (hp : rowPrecedes y x = true) :
    keyIs r u y = false := by
  simp only [keyIs, Bool.and_eq_true, decide_eq_true_eq] at hx
  simp only [rowPrecedes, Bool.or_eq_true, Bool.and_eq_true,
    decide_eq_true_eq] at hp
  simp only [keyIs, Bool.and_eq_false_iff, decide_eq_false_iff_not]
  by_contra hc
  push_neg at hc
  obtain ⟨h1, h2⟩ := hc
  rcases hp with h | ⟨h3, h4⟩
  · omega
  · rw [hx.2, h2] at h4
    exact lt_irrefl u h4

theorem filter_insertRow_pos {r : ℕ} {u : ℚ} {x : ResultRow}
    {l : List ResultRow} (hx : keyIs r u x = true) :
    (insertRow x l).filter (keyIs r u) = x :: l.filter (keyIs r u) := by
  induction l with
  | nil => simp [insertRow, hx]
  | cons y ys ih =>
    by_cases hp : rowPrecedes y x
    · have hy : keyIs r u y = false := keyIs_of_rowPrecedes hx hp
      rw [insertRow, if_pos hp, List.filter_cons_of_neg (by simp [hy]), ih,
        List.filter_cons_of_neg (by simp [hy])]
    · rw [insertRow, if_neg hp, List.filter_cons_of_pos (by simp [hx])]

theorem filter_insertRow_neg {r : ℕ} {u : ℚ} {x : ResultRow}
    {l : List ResultRow} (hx : keyIs r u x = false) :
    (insertRow x l).filter (keyIs r u) = l.filter (keyIs r u) := by
  induction l with
  | nil => simp [insertRow, hx]
  | cons y ys ih =>
    by_cases hp : rowPrecedes y x
    · rw [insertRow, if_pos hp]
      by_cases hy : keyIs r u y
      · rw [List.filter_cons_of_pos (by simp [hy]), ih,
          List.filter_cons_of_pos (by simp [hy])]
      · rw [List.filter_cons_of_neg (by simp [hy]), ih,
          List.filter_cons_of_neg (by simp [hy])]
    · rw [insertRow, if_neg hp, List.filter_cons_of_neg (by simp [hx])]

theorem filter_sortResults (r : ℕ) (u : ℚ) (l : List ResultRow) :
    (sortResults l).filter (keyIs r u) = l.filter (keyIs r u) := by
  induction l with
  | nil => rfl
  | cons x xs ih =>
    by_cases hx : keyIs r u x
    · rw [sortResults, filter_insertRow_pos hx, ih,
        List.filter_cons_of_pos (by simp [hx])]
    · rw [sortResults, filter_insertRow_neg (Bool.eq_false_iff.mpr hx), ih,
        List.filter_cons_of_neg (by simp [hx])]

/-! ## Theorems for claim C4 -/

/-- C4: the batch loop drops failed fetches (a ticker with no snapshot
contributes no row), and the final table is a permutation of the
per-ticker result rows, ordered by rank ascending then upside percentage
descending, with rows sharing both keys kept in their original relative
order (the multi-column sort is stable). -/
theorem batch_ranking (g e m : ℚ) (inputs : List StockInput)
    (tk : String) (ov : Option (Option ℚ)) (r : ℕ) (u : ℚ) :
    evalStock g e m ⟨tk, none, ov⟩ = none ∧
    (runBatch g e m inputs).Perm (inputs.filterMap (evalStock g e m)) ∧
    (runBatch g e m inputs).Pairwise rowLe ∧
    (runBatch g e m inputs).filter (keyIs r u) =
      (inputs.filterMap (evalStock g e m)).filter (keyIs r u) :=
  ⟨rfl, sortResults_perm _, pairwise_sortResults _, filter_sortResults r u _⟩

/-! ## Theorems for claim C2 -/

/-- C2 counterexample: a ticker whose only EPS figure is -5 makes the DCF
method report 0; with no override row present the loop hits the
`fv_usd <= 0` guard and drops the ticker, so the batch result is empty
instead of containing a degraded price-fraction fair value. -/
theorem degenerate_valuation_counterexample :
    (calculate_dcf_fair_value_eps (-5) (1/10)).fv = 0 ∧
    runBatch (1/10) 1 (15/100)
      [⟨"X", some ⟨[⟨10, 10, 1⟩], ⟨some (-5), none, some 100⟩⟩, none⟩] =
      [] := by
  constructor
  · norm_num [calculate_dcf_fair_value_eps]
  · norm_num [runBatch, evalStock, pyOr, apply_override,
      calculate_dcf_fair_value_eps, sortResults]

/-- C2 amended: when the resolved fair value is not positive (in
particular when every valuation method reports 0 and no positive override
exists), the loop excludes the instrument from the result set; no
price-fraction fallback estimate is produced. -/
theorem degenerate_valuation_excluded (g e m : ℚ) (tk : String)
    (snap : Snapshot) (ov : Option (Option ℚ))
    (h : apply_override ov
      (calculate_dcf_fair_value_eps
        (pyOr snap.info.trailingEps (pyOr snap.info.forwardEps 1)) g).fv
        ≤ 0) :
    evalStock g e m ⟨tk, some snap, ov⟩ = none := by
  unfold evalStock
  dsimp only
  rw [if_pos h]

/-- Witness for C2 amended: EPS -5 and no override row resolve to fair
value 0, and the ticker is dropped. -/
theorem degenerate_valuation_excluded_witness :
    apply_override none
      (calculate_dcf_fair_value_eps
        (pyOr (Info.mk (some (-5)) none (some 100)).trailingEps
          (pyOr (Info.mk (some (-5)) none (some 100)).forwardEps 1))
        (1/10)).fv ≤ 0 ∧
    evalStock (1/10) 1 (15/100)
      ⟨"X", some ⟨[⟨10, 10, 1⟩], ⟨some (-5), none, some 100⟩⟩, none⟩ =
      none :=
  ⟨by norm_num [apply_override, pyOr, calculate_dcf_fair_value_eps],
    degenerate_valuation_excluded (1/10) 1 (15/100) "X"
      ⟨[⟨10, 10, 1⟩], ⟨some (-5), none, some 100⟩⟩ none
      (by norm_num [apply_override, pyOr, calculate_dcf_fair_value_eps])⟩

/-! ## Theorems for claim C3 -/

/-- C3 counterexample: the computed fair value is 35 (EPS 1, growth 0.12)
but an override row storing the non-positive value 0 exists: the code
substitutes 0 rather than keeping the computed 35, and then drops the
ticker, although the claim promises the computed fair value is used
unchanged when the stored value is not positive. -/
theorem override_counterexample :
    (calculate_dcf_fair_value_eps 1 (12/100)).fv = 35 ∧
    apply_override (some (some 0))
      (calculate_dcf_fair_value_eps 1 (12/100)).fv = 0 ∧
    evalStock (12/100) 1 (15/100)
      ⟨"X", some ⟨[⟨10, 10, 1⟩], ⟨some 1, none, some 100⟩⟩,
        some (some 0)⟩ = none := by
  refine ⟨by norm_num [calculate_dcf_fair_value_eps, WACC], rfl, ?_⟩
  norm_num [evalStock, pyOr, apply_override, calculate_dcf_fair_value_eps]

/-- C3 amended: an existing override row with a stored value substitutes
that value for the computed fair value unconditionally (no positivity
check), and the substituted value drives every downstream quantity: the
EUR fair value, the upside, the signal and the rank.  A missing row, or a
row without a stored value, leaves the computed fair value unchanged. -/
theorem override_resolution (g e m : ℚ) (tk : String) (snap : Snapshot)
    (v fv : ℚ) (hv : 0 < v) :
    apply_override none fv = fv ∧
    apply_override (some none) fv = fv ∧
    apply_override (some (some v)) fv = v ∧
    evalStock g e m ⟨tk, some snap, some (some v)⟩ =
      some { ticker := tk,
             kurs_eur := pyOr snap.info.currentPrice (lastClose snap.hist) / e,
             fair_value_eur := v / e,
             upside_pct :=
               (v / e - pyOr snap.info.currentPrice (lastClose snap.hist) / e) /
                 (pyOr snap.info.currentPrice (lastClose snap.hist) / e) * 100,
             rsi := (calculate_technical_metrics snap.hist
               (pyOr snap.info.currentPrice (lastClose snap.hist))).rsi,
             signal := (generate_signal
               (pyOr snap.info.currentPrice (lastClose snap.hist) / e) (v / e)
               (calculate_technical_metrics snap.hist
                 (pyOr snap.info.currentPrice (lastClose snap.hist))).rsi
               m).1,
             fv_usd := v,
             rank := (generate_signal
               (pyOr snap.info.currentPrice (lastClose snap.hist) / e) (v / e)
               (calculate_technical_metrics snap.hist
                 (pyOr snap.info.currentPrice (lastClose snap.hist))).rsi
               m).2 } := by
  refine ⟨rfl, rfl, rfl, ?_⟩
  unfold evalStock
  dsimp only [apply_override, Option.getD]
  rw [if_neg (not_le.mpr hv)]

/-- Witness for C3 amended: an override value 50 replaces a computed fair
value of 120 (Scenario E). -/
theorem override_resolution_witness :
    (0:ℚ) < 50 ∧ apply_override (some (some 50)) 120 = 50 :=
  ⟨by norm_num,
    (override_resolution (12/100) 1 (3/20) "X"
      ⟨[⟨10, 10, 1⟩], ⟨some 1, none, some 100⟩⟩ 50 120 (by norm_num)).2.2.1⟩

/-! ## Theorems for claim C10 -/

/-- C10: when the fundamentals provide neither a trailing nor a forward
EPS (or only zero values for them), the loop values the instrument with
the default EPS 1.0: the DCF call reports no error, yields a positive fair
value, and — absent an override — the instrument stays in the result
set. -/
theorem default_eps_used (i : Info) (g e m : ℚ) (tk : String)
    (hist : List Bar) (hg : -1 < g)
    (ht : i.trailingEps = none ∨ i.trailingEps = some 0)
    (hf : i.forwardEps = none ∨ i.forwardEps = some 0) :
    pyOr i.trailingEps (pyOr i.forwardEps 1) = 1 ∧
    (calculate_dcf_fair_value_eps
      (pyOr i.trailingEps (pyOr i.forwardEps 1)) g).error = false ∧
    0 < (calculate_dcf_fair_value_eps
      (pyOr i.trailingEps (pyOr i.forwardEps 1)) g).fv ∧
    (evalStock g e m ⟨tk, some ⟨hist, i⟩, none⟩).isSome = true := by
  have h1 : pyOr i.trailingEps (pyOr i.forwardEps 1) = 1 := by
    rcases ht with h | h <;> rcases hf with h' | h' <;> simp [pyOr, h, h']
  have hfv : 0 < (calculate_dcf_fair_value_eps 1 g).fv :=
    dcf_fv_pos 1 g (by norm_num) hg
  refine ⟨h1, ?_, ?_, ?_⟩
  · rw [h1]; exact dcf_error_false 1 g (by norm_num)
  · rw [h1]; exact hfv
  · unfold evalStock
    dsimp only [apply_override]
    rw [h1, if_neg (not_le.mpr hfv)]
    rfl

/-- Witness for C10: fundamentals with no trailing EPS and a stored 0
forward EPS, growth rate 0.10. -/
theorem default_eps_used_witness :
    ((-1:ℚ) < 1/10 ∧
     (Info.mk none (some 0) (some 100)).trailingEps = none ∧
     (Info.mk none (some 0) (some 100)).forwardEps = some 0) ∧
    pyOr (Info.mk none (some 0) (some 100)).trailingEps
      (pyOr (Info.mk none (some 0) (some 100)).forwardEps 1) = 1 ∧
    (evalStock (1/10) 1 (3/20)
      ⟨"X", some ⟨[⟨10, 10, 1⟩], Info.mk none (some 0) (some 100)⟩,
        none⟩).isSome = true :=
  ⟨⟨by norm_num, rfl, rfl⟩,
    (default_eps_used (Info.mk none (some 0) (some 100)) (1/10) 1 (3/20) "X"
      [⟨10, 10, 1⟩] (by norm_num) (Or.inl rfl) (Or.inr rfl)).1,
    (default_eps_used (Info.mk none (some 0) (some 100)) (1/10) 1 (3/20) "X"
      [⟨10, 10, 1⟩] (by norm_num) (Or.inl rfl) (Or.inr rfl)).2.2.2⟩

end Watchlist
